import Mathlib

/-!
Shallow embedding of `astromodels/functions/apec.py`.

Numeric arrays are modelled as `List ℚ`; numpy elementwise operations become
`List.map` / `List.zipWith`, and every indexed read that can fail in Python
(an `IndexError`) is an `Option`-returning access, so a whole computation that
can fail returns `Option`.  External libraries are uninterpreted: the pyatomdb
`CIESession` carries an arbitrary spectrum function of its recorded inputs,
`np.exp` is an arbitrary function argument, and a FITS file is an arbitrary
assignment of (ENERGY, SIGMA) column pairs to path strings.
-/

/-- Model of `np.roll(a, -1)`: every element moves one slot to the left and the
first element wraps around to the end. -/
def np_roll_m1 {α : Type} : List α → List α
  | [] => []
  | a :: as => as ++ [a]

/-- Model of the line `ebplus = (np.roll(xz, -1) + xz)[:nval - 1] / 2.` of
`APEC.evaluate` / `VAPEC.evaluate`: elementwise sum of the rolled grid and the
grid, truncated to the first `nval - 1` entries, divided by 2. -/
def ebplus (xz : List ℚ) : List ℚ :=
  (((np_roll_m1 xz).zipWith (· + ·) xz).take (xz.length - 1)).map (· / 2)

/-- Model of the bin-edge construction of `APEC.evaluate` / `VAPEC.evaluate`:
`ebounds[1:nval] = ebplus`, `ebounds[0] = xz[0] - (ebplus[0] - xz[0])`,
`ebounds[nval] = xz[nval-1] + (xz[nval-1] - ebplus[nval-2])`.  The reads
`xz[0]`, `ebplus[0]`, `xz[nval-1]` and `ebplus[nval-2]` are Option-returning
index accesses, mirroring Python's possible `IndexError`. -/
def ebounds? (xz : List ℚ) : Option (List ℚ) := do
  let x0 ← xz[0]?
  let e0 ← (ebplus xz)[0]?
  let xl ← xz[xz.length - 1]?
  let el ← (ebplus xz)[xz.length - 2]?
  pure ((x0 - (e0 - x0)) :: (ebplus xz ++ [xl + (xl - el)]))

/-- Model of `binsize = (np.roll(ebounds, -1) - ebounds)[:nval]`. -/
def binsize (eb : List ℚ) (nval : ℕ) : List ℚ :=
  ((np_roll_m1 eb).zipWith (· - ·) eb).take nval

/-- Model of numpy elementwise division `a / b` of two arrays: defined when the
two arrays have the same length, a broadcast error otherwise. -/
def np_div? (a b : List ℚ) : Option (List ℚ) :=
  if a.length = b.length then some (a.zipWith (· / ·) b) else none

/-- The scalar `1e-14` of `spec = sess.return_spectrum(kT) / binsize / 1e-14`. -/
def e_m14 : ℚ := 1 / 10 ^ 14

/-- Model of a `pyatomdb.spectrum.CIESession`: the state recorded by
`set_response` and `set_abund`, together with an uninterpreted spectrum
function of exactly those recorded inputs and the temperature. -/
structure CIESession where
  response : List ℚ
  raw : Bool
  abund_elements : List ℕ
  abund : ℚ
  spectrum_fn : List ℚ → List ℕ → ℚ → ℚ → List ℚ

/-- Model of `sess.set_response(ebounds, raw=True)`: records the bin edges. -/
def CIESession.set_response (s : CIESession) (eb : List ℚ) (r : Bool) :
    CIESession :=
  { s with response := eb, raw := r }

/-- Model of `sess.set_abund(elements, abund)`: records the element list and
the abundance. -/
def CIESession.set_abund (s : CIESession) (els : List ℕ) (ab : ℚ) :
    CIESession :=
  { s with abund_elements := els, abund := ab }

/-- Model of `sess.return_spectrum(kT)`: the uninterpreted spectrum function
applied to the recorded response, element list, abundance, and `kT`. -/
def CIESession.return_spectrum (s : CIESession) (kT : ℚ) : List ℚ :=
  s.spectrum_fn s.response s.abund_elements s.abund kT

namespace APEC

/-- The element list passed to `set_abund` in `APEC.evaluate`. -/
def elements : List ℕ :=
  [6, 7, 8, 9, 10, 11, 12, 13, 14, 16, 17, 18, 19, 20, 21, 22, 23, 24, 25,
   26, 27, 28, 29, 30]

/-- Model of `APEC.evaluate`.  The session is passed in and the mutated
session is returned alongside the spectrum (state-passing for the in-place
mutation of `self.session`). -/
def evaluate (sess : CIESession) (x : List ℚ) (K kT abund redshift : ℚ) :
    Option (List ℚ × CIESession) := do
  let nval := x.length
  let xz := x.map (· * (1 + redshift))
  let eb ← ebounds? xz
  let bs := binsize eb nval
  let sess := sess.set_response eb true
  let sess := sess.set_abund elements abund
  let spec0 ← np_div? (sess.return_spectrum kT) bs
  let spec := spec0.map (· / e_m14)
  pure (spec.map (K * ·), sess)

end APEC

namespace VAPEC

/-- The element list passed to `set_abund` in `VAPEC.evaluate`. -/
def elements : List ℕ :=
  [3, 4, 5, 6, 7, 8, 9, 10, 11, 12, 13, 14, 16, 17, 18, 19, 20, 21, 22, 23,
   24, 25, 26, 27, 28, 29, 30]

/-- Model of `VAPEC.evaluate`; identical to `APEC.evaluate` except for the
element list handed to `set_abund`. -/
def evaluate (sess : CIESession) (x : List ℚ) (K kT abund redshift : ℚ) :
    Option (List ℚ × CIESession) := do
  let nval := x.length
  let xz := x.map (· * (1 + redshift))
  let eb ← ebounds? xz
  let bs := binsize eb nval
  let sess := sess.set_response eb true
  let sess := sess.set_abund elements abund
  let spec0 ← np_div? (sess.return_spectrum kT) bs
  let spec := spec0.map (· / e_m14)
  pure (spec.map (K * ·), sess)

end VAPEC

/-- Pointwise linear interpolation against a list of `(x, y)` knots, the
semantics of `np.interp` at one point: constant `fp[0]` below the first knot,
constant `fp[-1]` above the last, linear in between. -/
def interpPts (t : ℚ) : List (ℚ × ℚ) → ℚ
  | [] => 0
  | [p] => p.2
  | p :: q :: rest =>
    if t ≤ p.1 then p.2
    else if t ≤ q.1 then p.2 + (q.2 - p.2) * (t - p.1) / (q.1 - p.1)
    else interpPts t (q :: rest)

/-- Model of the vectorized `np.interp(x, xp, fp)`: an error when `xp` and
`fp` have different lengths or `xp` is empty, otherwise pointwise
interpolation at each entry of `x`. -/
def np_interp? (x xp fp : List ℚ) : Option (List ℚ) :=
  if xp.length = fp.length ∧ xp ≠ [] then
    some (x.map (fun t => interpPts t (xp.zip fp)))
  else none

/-- Model of the data of the first extension of an opened FITS cross-section
file: its `ENERGY` and `SIGMA` columns (`fxs[1].data['ENERGY']`,
`fxs[1].data['SIGMA']`). -/
structure FitsData where
  energy : List ℚ
  sigma : List ℚ

/-- The instance attributes `xsect_ene` / `xsect_val` shared by the `PhAbs`
and `TbAbs` classes; `none` models a Python attribute that is `None` (not yet
loaded by `init_xsect`). -/
structure XsectState where
  xsect_ene : Option (List ℚ)
  xsect_val : Option (List ℚ)

/-- Simplified model of `os.path.join(a, b)` for a non-empty relative second
component. -/
def os_path_join (a b : String) : String := a ++ "/" ++ b

namespace PhAbs

/-- The path opened by `PhAbs.init_xsect` as a function of the user data
directory and the abundance-table name: the `if/elif/else` chain of the
source, with the `else` branch falling back to the AG89 file. -/
def xsect_fname (userData abund_table : String) : String :=
  let path_to_xsect := os_path_join userData "xsect"
  if abund_table = "AG89" then path_to_xsect ++ "/xsect_phabs_angr.fits"
  else if abund_table = "ASPL" then path_to_xsect ++ "/xsect_phabs_aspl.fits"
  else path_to_xsect ++ "/xsect_phabs_angr.fits"

/-- Model of `PhAbs.init_xsect`: opens the selected FITS file (the filesystem
is the uninterpreted map `fits` from paths to first-extension data) and stores
its `ENERGY` and `SIGMA` columns in the instance attributes. -/
def init_xsect (fits : String → FitsData) (userData abund_table : String)
    (st : XsectState) : XsectState :=
  let dxs := fits (xsect_fname userData abund_table)
  { st with xsect_ene := some dxs.energy, xsect_val := some dxs.sigma }

/-- Model of `PhAbs.evaluate`: asserts the table is loaded, interpolates it at
`x`, and returns `np.exp(-NH * xsect_interp)` elementwise; `np_exp` is the
uninterpreted model of `np.exp`.  The unchanged instance state is returned to
express that evaluation assigns no attribute. -/
def evaluate (np_exp : ℚ → ℚ) (st : XsectState) (x : List ℚ) (NH : ℚ) :
    Option (List ℚ × XsectState) := do
  let ene ← st.xsect_ene
  let val ← st.xsect_val
  let xsect_interp ← np_interp? x ene val
  let spec := xsect_interp.map (fun s => np_exp (-(NH * s)))
  pure (spec, st)

end PhAbs

namespace TbAbs

/-- The path opened by `TbAbs.init_xsect` as a function of the user data
directory and the abundance-table name: the `if/elif/elif/else` chain of the
source.  The `ASPL`, `WILM` and fallback branches append `'/xsect/...'` to a
path that already ends in `/xsect`, yielding a doubled `xsect/xsect/`
segment; the fallback is the WILM file. -/
def xsect_fname (userData abund_table : String) : String :=
  let path_to_xsect := os_path_join userData "xsect"
  if abund_table = "AG89" then path_to_xsect ++ "/xsect_tbabs_angr.fits"
  else if abund_table = "ASPL" then path_to_xsect ++ "/xsect/xsect_tbabs_aspl.fits"
  else if abund_table = "WILM" then path_to_xsect ++ "/xsect/xsect_tbabs_wilm.fits"
  else path_to_xsect ++ "/xsect/xsect_tbabs_wilm.fits"

/-- Model of `TbAbs.init_xsect`: same shape as `PhAbs.init_xsect` with the
TbAbs file-selection chain. -/
def init_xsect (fits : String → FitsData) (userData abund_table : String)
    (st : XsectState) : XsectState :=
  let dxs := fits (xsect_fname userData abund_table)
  { st with xsect_ene := some dxs.energy, xsect_val := some dxs.sigma }

/-- Model of `TbAbs.evaluate`; the body is the very same code as
`PhAbs.evaluate` in the source. -/
def evaluate (np_exp : ℚ → ℚ) (st : XsectState) (x : List ℚ) (NH : ℚ) :
    Option (List ℚ × XsectState) := do
  let ene ← st.xsect_ene
  let val ← st.xsect_val
  let xsect_interp ← np_interp? x ene val
  let spec := xsect_interp.map (fun s => np_exp (-(NH * s)))
  pure (spec, st)

end TbAbs

/-! ### Index characterizations of the bin-edge construction -/

lemma np_roll_m1_length {α : Type} (l : List α) :
    (np_roll_m1 l).length = l.length := by
  cases l <;> simp [np_roll_m1]

lemma np_roll_m1_getElem? {α : Type} (l : List α) (i : ℕ)
    (h : i + 1 < l.length) : (np_roll_m1 l)[i]? = l[i + 1]? := by
  cases l with
  | nil => simp at h
  | cons a as =>
    simp only [np_roll_m1, List.length_cons] at *
    rw [List.getElem?_append, if_pos (by omega)]
    simp

lemma getElem?_eq_some_getD (l : List ℚ) (i : ℕ) (h : i < l.length) :
    l[i]? = some (l.getD i 0) := by
  rw [List.getElem?_eq_getElem h, List.getD_eq_getElem l 0 h]

lemma zipWith_getElem?_some {f : ℚ → ℚ → ℚ} {a b : List ℚ} {i : ℕ} {u v : ℚ}
    (ha : a[i]? = some u) (hb : b[i]? = some v) :
    (List.zipWith f a b)[i]? = some (f u v) := by
  induction a generalizing b i with
  | nil => simp at ha
  | cons x xs ih =>
    cases b with
    | nil => simp at hb
    | cons y ys =>
      cases i with
      | zero => simp_all
      | succ j => simpa using ih (by simpa using ha) (by simpa using hb)

lemma ebplus_length (xz : List ℚ) : (ebplus xz).length = xz.length - 1 := by
  simp [ebplus, np_roll_m1_length]

lemma ebplus_getElem? (xz : List ℚ) (i : ℕ) (h : i < xz.length - 1) :
    (ebplus xz)[i]? = some ((xz.getD (i + 1) 0 + xz.getD i 0) / 2) := by
  have h1 : i + 1 < xz.length := by omega
  have h0 : i < xz.length := by omega
  unfold ebplus
  rw [List.getElem?_map, List.getElem?_take]
  rw [if_pos h]
  rw [zipWith_getElem?_some
    (by rw [np_roll_m1_getElem? xz i h1]; exact getElem?_eq_some_getD xz (i + 1) h1)
    (getElem?_eq_some_getD xz i h0)]
  simp

lemma ebplus_getD (xz : List ℚ) (i : ℕ) (h : i < xz.length - 1) :
    (ebplus xz).getD i 0 = (xz.getD (i + 1) 0 + xz.getD i 0) / 2 := by
  rw [List.getD_eq_getElem?_getD, ebplus_getElem? xz i h, Option.getD_some]

/-- The value of the bin-edge array when every index access is in bounds:
head edge, the `ebplus` midpoints, and the tail edge. -/
def ebL (xz : List ℚ) : List ℚ :=
  (xz.getD 0 0 - ((ebplus xz).getD 0 0 - xz.getD 0 0)) ::
    (ebplus xz ++
      [xz.getD (xz.length - 1) 0 +
        (xz.getD (xz.length - 1) 0 - (ebplus xz).getD (xz.length - 2) 0)])

lemma ebounds?_eq_some (xz : List ℚ) (h : 2 ≤ xz.length) :
    ebounds? xz = some (ebL xz) := by
  have hlen := ebplus_length xz
  unfold ebounds?
  rw [getElem?_eq_some_getD xz 0 (by omega),
      getElem?_eq_some_getD (ebplus xz) 0 (by omega),
      getElem?_eq_some_getD xz (xz.length - 1) (by omega),
      getElem?_eq_some_getD (ebplus xz) (xz.length - 2) (by omega)]
  rfl

lemma ebounds?_isSome (xz : List ℚ) (h : 2 ≤ xz.length) :
    (ebounds? xz).isSome := by
  rw [ebounds?_eq_some xz h]; rfl

lemma ebL_length (xz : List ℚ) : (ebL xz).length = (xz.length - 1) + 2 := by
  simp [ebL, ebplus_length]

lemma ebL_getD_zero (xz : List ℚ) :
    (ebL xz).getD 0 0 =
      xz.getD 0 0 - ((ebplus xz).getD 0 0 - xz.getD 0 0) := by
  simp [ebL]

lemma ebL_getD_mid (xz : List ℚ) (i : ℕ) (h1 : 1 ≤ i)
    (h2 : i ≤ xz.length - 1) :
    (ebL xz).getD i 0 = (xz.getD i 0 + xz.getD (i - 1) 0) / 2 := by
  obtain ⟨j, rfl⟩ : ∃ j, i = j + 1 := ⟨i - 1, by omega⟩
  have hj : j < xz.length - 1 := by omega
  rw [ebL, List.getD_cons_succ,
      List.getD_append _ _ 0 j (by rw [ebplus_length]; omega),
      ebplus_getD xz j hj]
  simp

lemma ebL_getD_last (xz : List ℚ) (h3 : 2 ≤ xz.length) :
    (ebL xz).getD xz.length 0 =
      xz.getD (xz.length - 1) 0 +
        (xz.getD (xz.length - 1) 0 - (ebplus xz).getD (xz.length - 2) 0) := by
  obtain ⟨j, hj⟩ : ∃ j, xz.length = j + 1 := ⟨xz.length - 1, by omega⟩
  rw [ebL, hj, List.getD_cons_succ,
      List.getD_append_right _ _ 0 j (by rw [ebplus_length]; omega)]
  rw [ebplus_length]
  have : j - (xz.length - 1) = 0 := by omega
  rw [this]
  simp [hj]

lemma binsize_length (eb : List ℚ) (n : ℕ) :
    (binsize eb n).length = min n eb.length := by
  simp [binsize, np_roll_m1_length, Nat.min_comm]

lemma binsize_getD (eb : List ℚ) (n i : ℕ) (hi : i < n)
    (hib : i + 1 < eb.length) :
    (binsize eb n).getD i 0 = eb.getD (i + 1) 0 - eb.getD i 0 := by
  rw [List.getD_eq_getElem?_getD]
  unfold binsize
  rw [List.getElem?_take, if_pos hi,
      zipWith_getElem?_some
        (by rw [np_roll_m1_getElem? eb i hib]
            exact getElem?_eq_some_getD eb (i + 1) hib)
        (getElem?_eq_some_getD eb i (by omega))]
  simp

/-- The session after the `set_response` / `set_abund` calls made by
`APEC.evaluate` (with element list `els`): all recorded state overwritten. -/
lemma session_after_sets (sess : CIESession) (eb : List ℚ) (els : List ℕ)
    (ab : ℚ) :
    (sess.set_response eb true).set_abund els ab =
      ⟨eb, true, els, ab, sess.spectrum_fn⟩ := rfl

lemma APEC_evaluate_eq (sess : CIESession) (x : List ℚ) (K kT ab z : ℚ)
    (eb : List ℚ) (heb : ebounds? (x.map (· * (1 + z))) = some eb) :
    APEC.evaluate sess x K kT ab z =
      (np_div?
          (((sess.set_response eb true).set_abund APEC.elements ab).return_spectrum kT)
          (binsize eb x.length)).bind
        (fun spec0 =>
          some ((spec0.map (· / e_m14)).map (K * ·),
            (sess.set_response eb true).set_abund APEC.elements ab)) := by
  simp [APEC.evaluate, heb]

lemma VAPEC_evaluate_eq (sess : CIESession) (x : List ℚ) (K kT ab z : ℚ)
    (eb : List ℚ) (heb : ebounds? (x.map (· * (1 + z))) = some eb) :
    VAPEC.evaluate sess x K kT ab z =
      (np_div?
          (((sess.set_response eb true).set_abund VAPEC.elements ab).return_spectrum kT)
          (binsize eb x.length)).bind
        (fun spec0 =>
          some ((spec0.map (· / e_m14)).map (K * ·),
            (sess.set_response eb true).set_abund VAPEC.elements ab)) := by
  simp [VAPEC.evaluate, heb]

lemma APEC_evaluate_some_session {sess : CIESession} {x : List ℚ}
    {K kT ab z : ℚ} {r : List ℚ} {s2 : CIESession} {eb : List ℚ}
    (heb : ebounds? (x.map (· * (1 + z))) = some eb)
    (h : APEC.evaluate sess x K kT ab z = some (r, s2)) :
    s2 = (sess.set_response eb true).set_abund APEC.elements ab := by
  rw [APEC_evaluate_eq sess x K kT ab z eb heb] at h
  cases hd : np_div?
      (((sess.set_response eb true).set_abund APEC.elements ab).return_spectrum kT)
      (binsize eb x.length) with
  | none => rw [hd] at h; simp at h
  | some spec0 => rw [hd] at h; simp at h; exact h.2.symm

lemma VAPEC_evaluate_some_session {sess : CIESession} {x : List ℚ}
    {K kT ab z : ℚ} {r : List ℚ} {s2 : CIESession} {eb : List ℚ}
    (heb : ebounds? (x.map (· * (1 + z))) = some eb)
    (h : VAPEC.evaluate sess x K kT ab z = some (r, s2)) :
    s2 = (sess.set_response eb true).set_abund VAPEC.elements ab := by
  rw [VAPEC_evaluate_eq sess x K kT ab z eb heb] at h
  cases hd : np_div?
      (((sess.set_response eb true).set_abund VAPEC.elements ab).return_spectrum kT)
      (binsize eb x.length) with
  | none => rw [hd] at h; simp at h
  | some spec0 => rw [hd] at h; simp at h; exact h.2.symm

/-! ### Claims -/

/-- Claim C1: for every energy grid `x` of length `n ≥ 2` and redshift `z`,
`APEC.evaluate` (and identically `VAPEC.evaluate`) derives from the redshifted
centers `xz = x*(1+z)` a bin-edge sequence `ebounds` of length `n+1` with
`ebounds[i] = (xz[i-1]+xz[i])/2` for `1 ≤ i ≤ n-1`,
`ebounds[0] = 2*xz[0] - ebounds[1]`,
`ebounds[n] = 2*xz[n-1] - ebounds[n-1]`, and this `ebounds` is what is passed
to the external API via `set_response(ebounds, raw=True)`. -/
theorem C1_bin_edge_construction (x : List ℚ) (z : ℚ) (h : 2 ≤ x.length) :
    ∃ eb, ebounds? (x.map (· * (1 + z))) = some eb ∧
      eb.length = x.length + 1 ∧
      (∀ i, 1 ≤ i → i ≤ x.length - 1 →
        eb.getD i 0 =
          ((x.map (· * (1 + z))).getD (i - 1) 0 +
            (x.map (· * (1 + z))).getD i 0) / 2) ∧
      eb.getD 0 0 = 2 * (x.map (· * (1 + z))).getD 0 0 - eb.getD 1 0 ∧
      eb.getD x.length 0 =
        2 * (x.map (· * (1 + z))).getD (x.length - 1) 0 -
          eb.getD (x.length - 1) 0 ∧
      (∀ sess K kT ab r s2, APEC.evaluate sess x K kT ab z = some (r, s2) →
        s2.response = eb ∧ s2.raw = true) ∧
      (∀ sess K kT ab r s2, VAPEC.evaluate sess x K kT ab z = some (r, s2) →
        s2.response = eb ∧ s2.raw = true) := by
  set xz := x.map (· * (1 + z)) with hxz
  have hlen : xz.length = x.length := by simp [hxz]
  have h2 : 2 ≤ xz.length := by omega
  refine ⟨ebL xz, ebounds?_eq_some xz h2, ?_, ?_, ?_, ?_, ?_, ?_⟩
  · rw [ebL_length]; omega
  · intro i h1 hi
    rw [ebL_getD_mid xz i h1 (by omega)]
    ring
  · rw [ebL_getD_zero, ebL_getD_mid xz 1 le_rfl (by omega),
        ebplus_getD xz 0 (by omega)]
    ring_nf
  · rw [← hlen, ebL_getD_last xz h2,
        ebL_getD_mid xz (xz.length - 1) (by omega) (by omega),
        ebplus_getD xz (xz.length - 2) (by omega)]
    have e1 : xz.length - 2 + 1 = xz.length - 1 := by omega
    have e2 : xz.length - 1 - 1 = xz.length - 2 := by omega
    rw [e1, e2]
    ring
  · intro sess K kT ab r s2 hev
    have := APEC_evaluate_some_session (ebounds?_eq_some xz h2) hev
    subst this
    exact ⟨rfl, rfl⟩
  · intro sess K kT ab r s2 hev
    have := VAPEC_evaluate_some_session (ebounds?_eq_some xz h2) hev
    subst this
    exact ⟨rfl, rfl⟩

/-- Witness for C1 at the concrete grid `[1, 2, 4]` and redshift `1`. -/
theorem C1_bin_edge_construction_witness :
    2 ≤ ([1, 2, 4] : List ℚ).length ∧
      (∃ eb, ebounds? (([1, 2, 4] : List ℚ).map (· * (1 + 1))) = some eb ∧
        eb.length = ([1, 2, 4] : List ℚ).length + 1 ∧
        (∀ i, 1 ≤ i → i ≤ ([1, 2, 4] : List ℚ).length - 1 →
          eb.getD i 0 =
            ((([1, 2, 4] : List ℚ).map (· * (1 + 1))).getD (i - 1) 0 +
              (([1, 2, 4] : List ℚ).map (· * (1 + 1))).getD i 0) / 2) ∧
        eb.getD 0 0 =
          2 * (([1, 2, 4] : List ℚ).map (· * (1 + 1))).getD 0 0 -
            eb.getD 1 0 ∧
        eb.getD ([1, 2, 4] : List ℚ).length 0 =
          2 * (([1, 2, 4] : List ℚ).map (· * (1 + 1))).getD
              (([1, 2, 4] : List ℚ).length - 1) 0 -
            eb.getD (([1, 2, 4] : List ℚ).length - 1) 0 ∧
        (∀ sess K kT ab r s2,
          APEC.evaluate sess [1, 2, 4] K kT ab 1 = some (r, s2) →
            s2.response = eb ∧ s2.raw = true) ∧
        (∀ sess K kT ab r s2,
          VAPEC.evaluate sess [1, 2, 4] K kT ab 1 = some (r, s2) →
            s2.response = eb ∧ s2.raw = true)) :=
  ⟨by decide, C1_bin_edge_construction [1, 2, 4] 1 (by decide)⟩

/-- Claim C8: the bin-edge construction reads `ebplus[0]` and
`ebplus[nval-2]` from an array of length `nval-1`, so for grids of length 0
or 1 an Option-returning index access fails and `APEC.evaluate` /
`VAPEC.evaluate` hit the error branch, while for `len(x) ≥ 2` every index
access is in bounds. -/
theorem C8_short_grid_safety (x : List ℚ) (z : ℚ) :
    (x.length = 0 ∨ x.length = 1 →
      ebounds? (x.map (· * (1 + z))) = none ∧
      (∀ sess K kT ab, APEC.evaluate sess x K kT ab z = none) ∧
      (∀ sess K kT ab, VAPEC.evaluate sess x K kT ab z = none)) ∧
    (2 ≤ x.length → (ebounds? (x.map (· * (1 + z)))).isSome = true) := by
  constructor
  · intro hx
    have hshape : x = [] ∨ ∃ a, x = [a] := by
      cases x with
      | nil => exact Or.inl rfl
      | cons a as =>
        cases as with
        | nil => exact Or.inr ⟨a, rfl⟩
        | cons b bs => simp at hx
    have hnone : ebounds? (x.map (· * (1 + z))) = none := by
      rcases hshape with rfl | ⟨a, rfl⟩
      · rfl
      · simp [ebounds?, ebplus, np_roll_m1]
    refine ⟨hnone, fun sess K kT ab => ?_, fun sess K kT ab => ?_⟩
    · simp [APEC.evaluate, hnone]
    · simp [VAPEC.evaluate, hnone]
  · intro hx
    exact ebounds?_isSome _ (by simpa using hx)

/-- Witness for C8: the grid `[5]` makes the construction fail, the grid
`[1, 2]` makes every access succeed. -/
theorem C8_short_grid_safety_witness :
    (ebounds? (([5] : List ℚ).map (· * (1 + 0))) = none ∧
      (∀ sess K kT ab, APEC.evaluate sess [5] K kT ab 0 = none) ∧
      (∀ sess K kT ab, VAPEC.evaluate sess [5] K kT ab 0 = none)) ∧
      (ebounds? (([1, 2] : List ℚ).map (· * (1 + 0)))).isSome = true :=
  ⟨(C8_short_grid_safety [5] 0).1 (by decide),
   (C8_short_grid_safety [1, 2] 0).2 (by decide)⟩

lemma getD_map_mul (c : ℚ) (l : List ℚ) (i : ℕ) (h : i < l.length) :
    (l.map (· * c)).getD i 0 = l.getD i 0 * c := by
  rw [List.getD_eq_getElem _ 0 (by simpa), List.getD_eq_getElem _ 0 h,
      List.getElem_map]

/-- Claim C2: for a strictly increasing grid of length at least 2 and a
nonnegative redshift, the computed bin edges are strictly increasing and
bracket the redshifted centers: `ebounds[i] < xz[i] < ebounds[i+1]`. -/
theorem C2_bin_edges_bracket (x : List ℚ) (z : ℚ) (h2 : 2 ≤ x.length)
    (hz : 0 ≤ z)
    (hmono : ∀ i < x.length - 1, x.getD i 0 < x.getD (i + 1) 0) :
    ∃ eb, ebounds? (x.map (· * (1 + z))) = some eb ∧
      eb.Chain' (· < ·) ∧
      ∀ i < x.length,
        eb.getD i 0 < (x.map (· * (1 + z))).getD i 0 ∧
        (x.map (· * (1 + z))).getD i 0 < eb.getD (i + 1) 0 := by
  set xz := x.map (· * (1 + z)) with hxz
  have hlen : xz.length = x.length := by simp [hxz]
  have h2' : 2 ≤ xz.length := by omega
  have hc : (0 : ℚ) < 1 + z := by linarith
  have hmz : ∀ i, i + 1 < xz.length → xz.getD i 0 < xz.getD (i + 1) 0 := by
    intro i hi
    rw [hxz, getD_map_mul _ _ _ (by omega), getD_map_mul _ _ _ (by omega)]
    exact mul_lt_mul_of_pos_right (hmono i (by omega)) hc
  have hE0 : (ebL xz).getD 0 0 =
      xz.getD 0 0 - ((xz.getD 1 0 + xz.getD 0 0) / 2 - xz.getD 0 0) := by
    rw [ebL_getD_zero, ebplus_getD xz 0 (by omega)]
  have hEmid : ∀ i, 1 ≤ i → i ≤ xz.length - 1 →
      (ebL xz).getD i 0 = (xz.getD i 0 + xz.getD (i - 1) 0) / 2 :=
    fun i hi hi' => ebL_getD_mid xz i hi hi'
  have hElast : (ebL xz).getD xz.length 0 =
      xz.getD (xz.length - 1) 0 +
        (xz.getD (xz.length - 1) 0 -
          (xz.getD (xz.length - 1) 0 + xz.getD (xz.length - 2) 0) / 2) := by
    rw [ebL_getD_last xz h2', ebplus_getD xz (xz.length - 2) (by omega)]
    have e1 : xz.length - 2 + 1 = xz.length - 1 := by omega
    rw [e1]
  have hbr : ∀ i < xz.length,
      (ebL xz).getD i 0 < xz.getD i 0 ∧
        xz.getD i 0 < (ebL xz).getD (i + 1) 0 := by
    intro i hi
    constructor
    · rcases Nat.eq_zero_or_pos i with rfl | hip
      · have := hmz 0 (by omega)
        rw [hE0]; simp at this ⊢; linarith
      · rw [hEmid i hip (by omega)]
        have := hmz (i - 1) (by omega)
        have e1 : i - 1 + 1 = i := by omega
        rw [e1] at this
        linarith
    · rcases lt_or_ge (i + 1) xz.length with hlt | hge
      · rw [hEmid (i + 1) (by omega) (by omega)]
        have := hmz i (by omega)
        simp only [Nat.add_sub_cancel]
        linarith
      · have hieq : i = xz.length - 1 := by omega
        have e2 : xz.length - 1 + 1 = xz.length := by omega
        rw [hieq, e2, hElast]
        have := hmz (xz.length - 2) (by omega)
        have e1 : xz.length - 2 + 1 = xz.length - 1 := by omega
        rw [e1] at this
        linarith
  refine ⟨ebL xz, ebounds?_eq_some xz h2', ?_, ?_⟩
  · rw [List.chain'_iff_get]
    intro i hi
    rw [ebL_length] at hi
    have hi' : i < xz.length := by omega
    have hg1 : (ebL xz).get ⟨i, by rw [ebL_length]; omega⟩ =
        (ebL xz).getD i 0 := by
      rw [List.getD_eq_getElem _ 0 (by rw [ebL_length]; omega)]
      rfl
    have hg2 : (ebL xz).get ⟨i + 1, by rw [ebL_length]; omega⟩ =
        (ebL xz).getD (i + 1) 0 := by
      rw [List.getD_eq_getElem _ 0 (by rw [ebL_length]; omega)]
      rfl
    rw [hg1, hg2]
    exact lt_trans (hbr i hi').1 (hbr i hi').2
  · intro i hi
    exact hbr i (by omega)

/-- Witness for C2 at the strictly increasing grid `[1, 2]`, redshift `0`. -/
theorem C2_bin_edges_bracket_witness :
    2 ≤ ([1, 2] : List ℚ).length ∧ (0 : ℚ) ≤ 0 ∧
      (∀ i < ([1, 2] : List ℚ).length - 1,
        ([1, 2] : List ℚ).getD i 0 < ([1, 2] : List ℚ).getD (i + 1) 0) ∧
      (∃ eb, ebounds? (([1, 2] : List ℚ).map (· * (1 + 0))) = some eb ∧
        eb.Chain' (· < ·) ∧
        ∀ i < ([1, 2] : List ℚ).length,
          eb.getD i 0 < (([1, 2] : List ℚ).map (· * (1 + 0))).getD i 0 ∧
          (([1, 2] : List ℚ).map (· * (1 + 0))).getD i 0 <
            eb.getD (i + 1) 0) :=
  ⟨by decide, by decide, by decide,
   C2_bin_edges_bracket [1, 2] 0 (by decide) (by decide) (by decide)⟩

/-! ### Homogeneity of the bin-edge construction -/

lemma np_roll_m1_map (f : ℚ → ℚ) (l : List ℚ) :
    np_roll_m1 (l.map f) = (np_roll_m1 l).map f := by
  cases l <;> simp [np_roll_m1]

lemma zipWith_add_map_mul (c : ℚ) :
    ∀ a b : List ℚ,
      List.zipWith (· + ·) (a.map (· * c)) (b.map (· * c)) =
        (List.zipWith (· + ·) a b).map (· * c) := by
  intro a
  induction a with
  | nil => intro b; simp
  | cons u us ih =>
    intro b
    cases b with
    | nil => simp
    | cons v vs => simp [ih vs, add_mul]

lemma ebplus_map_mul (c : ℚ) (xz : List ℚ) :
    ebplus (xz.map (· * c)) = (ebplus xz).map (· * c) := by
  unfold ebplus
  rw [np_roll_m1_map, zipWith_add_map_mul, List.length_map, ← List.map_take,
      List.map_map, List.map_map]
  refine List.map_congr_left fun u _ => ?_
  show u * c / 2 = u / 2 * c
  ring

lemma ebounds?_map_mul (c : ℚ) (xz : List ℚ) :
    ebounds? (xz.map (· * c)) = (ebounds? xz).map (List.map (· * c)) := by
  unfold ebounds?
  simp only [List.length_map, ebplus_map_mul, List.getElem?_map]
  cases h0 : xz[0]? with
  | none => simp
  | some x0 =>
    cases h1 : (ebplus xz)[0]? with
    | none => simp
    | some e0 =>
      cases h2 : xz[xz.length - 1]? with
      | none => simp
      | some xl =>
        cases h3 : (ebplus xz)[xz.length - 2]? with
        | none => simp
        | some el =>
          simp only [Option.map_some, Option.bind_some, Option.some_bind,
            Option.map]
          refine congrArg some ?_
          simp only [List.map_cons, List.map_append, List.map_cons,
            List.map_nil]
          rw [List.cons_eq_cons]
          refine ⟨by ring, ?_⟩
          rw [List.append_cancel_left_eq]
          rw [List.cons_eq_cons]
          exact ⟨by ring, rfl⟩

/-- Claim C10: the bin-edge construction is homogeneous in the redshift
factor: for every grid of length at least 2, the bin-edge sequence at
redshift `z` is `(1+z)` times the sequence at redshift `0` for the same grid,
and equals the sequence computed at redshift `0` for the pre-redshifted grid
`x*(1+z)`. -/
theorem C10_redshift_homogeneity (x : List ℚ) (z : ℚ) (h : 2 ≤ x.length) :
    ebounds? (x.map (· * (1 + z))) =
      (ebounds? (x.map (· * (1 + 0)))).map (List.map ((1 + z) * ·)) ∧
    ebounds? (x.map (· * (1 + z))) =
      ebounds? ((x.map (· * (1 + z))).map (· * (1 + 0))) := by
  have hid : ∀ y : List ℚ, y.map (· * (1 + 0)) = y := by
    intro y; simp
  constructor
  · rw [hid x]
    have hmc : (List.map fun u : ℚ => (1 + z) * u) =
        (List.map fun u : ℚ => u * (1 + z)) := by
      funext l
      exact List.map_congr_left fun u _ => mul_comm _ _
    rw [hmc, ← ebounds?_map_mul (1 + z) x]
  · rw [hid]

/-- Witness for C10 at the grid `[1, 2]` and redshift `1`. -/
theorem C10_redshift_homogeneity_witness :
    2 ≤ ([1, 2] : List ℚ).length ∧
      (ebounds? (([1, 2] : List ℚ).map (· * (1 + 1))) =
        (ebounds? (([1, 2] : List ℚ).map (· * (1 + 0)))).map
          (List.map ((1 + 1) * ·)) ∧
      ebounds? (([1, 2] : List ℚ).map (· * (1 + 1))) =
        ebounds? ((([1, 2] : List ℚ).map (· * (1 + 1))).map (· * (1 + 0)))) :=
  ⟨by decide, C10_redshift_homogeneity [1, 2] 1 (by decide)⟩

lemma getD_map_of_lt (f : ℚ → ℚ) (l : List ℚ) (i : ℕ) (h : i < l.length) :
    (l.map f).getD i 0 = f (l.getD i 0) := by
  rw [List.getD_eq_getElem _ 0 (by simpa), List.getD_eq_getElem _ 0 h,
      List.getElem_map]

lemma zipWith_getD (f : ℚ → ℚ → ℚ) (a b : List ℚ) (i : ℕ)
    (ha : i < a.length) (hb : i < b.length) :
    (List.zipWith f a b).getD i 0 = f (a.getD i 0) (b.getD i 0) := by
  rw [List.getD_eq_getElem?_getD,
      zipWith_getElem?_some (getElem?_eq_some_getD a i ha)
        (getElem?_eq_some_getD b i hb)]
  rfl

/-- Claim C4: for a grid of length at least 2, `APEC.evaluate` (resp.
`VAPEC.evaluate`) returns elementwise `K * s[i] / binsize[i] / 1e-14`, where
`s` is the spectrum returned by the external session's `return_spectrum(kT)`
after `set_response(ebounds, raw=True)` and `set_abund(elements, abund)` have
been called, and `binsize[i] = ebounds[i+1] - ebounds[i]` (the external
session is an uninterpreted function of its recorded inputs). -/
theorem C4_external_spectrum_scaling (sess : CIESession) (x : List ℚ)
    (K kT ab z : ℚ) (h2 : 2 ≤ x.length) :
    ∃ eb, ebounds? (x.map (· * (1 + z))) = some eb ∧
      (∀ i < x.length,
        (binsize eb x.length).getD i 0 = eb.getD (i + 1) 0 - eb.getD i 0) ∧
      ((((sess.set_response eb true).set_abund APEC.elements ab).return_spectrum
            kT).length = x.length →
        ∃ r, APEC.evaluate sess x K kT ab z =
            some (r, (sess.set_response eb true).set_abund APEC.elements ab) ∧
          ∀ i < x.length,
            r.getD i 0 =
              K * ((((sess.set_response eb true).set_abund
                      APEC.elements ab).return_spectrum kT).getD i 0 /
                  (binsize eb x.length).getD i 0 / e_m14)) ∧
      ((((sess.set_response eb true).set_abund VAPEC.elements ab).return_spectrum
            kT).length = x.length →
        ∃ r, VAPEC.evaluate sess x K kT ab z =
            some (r, (sess.set_response eb true).set_abund VAPEC.elements ab) ∧
          ∀ i < x.length,
            r.getD i 0 =
              K * ((((sess.set_response eb true).set_abund
                      VAPEC.elements ab).return_spectrum kT).getD i 0 /
                  (binsize eb x.length).getD i 0 / e_m14)) := by
  set xz := x.map (· * (1 + z)) with hxz
  have hlen : xz.length = x.length := by simp [hxz]
  have h2' : 2 ≤ xz.length := by omega
  have heb := ebounds?_eq_some xz h2'
  have hebl : (ebL xz).length = x.length + 1 := by rw [ebL_length]; omega
  have hbs : ∀ i < x.length,
      (binsize (ebL xz) x.length).getD i 0 =
        (ebL xz).getD (i + 1) 0 - (ebL xz).getD i 0 := by
    intro i hi
    exact binsize_getD (ebL xz) x.length i hi (by omega)
  have hbslen : (binsize (ebL xz) x.length).length = x.length := by
    rw [binsize_length, hebl]; omega
  refine ⟨ebL xz, heb, hbs, ?_, ?_⟩
  · intro hs
    set s := (((sess.set_response (ebL xz) true).set_abund
        APEC.elements ab).return_spectrum kT) with hsdef
    have hdiv : np_div? s (binsize (ebL xz) x.length) =
        some (s.zipWith (· / ·) (binsize (ebL xz) x.length)) := by
      unfold np_div?
      rw [if_pos (by rw [hbslen, hs])]
    refine ⟨((s.zipWith (· / ·)
        (binsize (ebL xz) x.length)).map (· / e_m14)).map (K * ·), ?_, ?_⟩
    · rw [APEC_evaluate_eq sess x K kT ab z (ebL xz) heb, ← hsdef, hdiv]
      rfl
    · intro i hi
      have hzl : i < (s.zipWith (· / ·) (binsize (ebL xz) x.length)).length := by
        rw [List.length_zipWith, hs, hbslen]; omega
      rw [getD_map_of_lt _ _ i (by simpa using hzl),
          getD_map_of_lt _ _ i hzl,
          zipWith_getD _ _ _ i (by omega) (by omega)]
  · intro hs
    set s := (((sess.set_response (ebL xz) true).set_abund
        VAPEC.elements ab).return_spectrum kT) with hsdef
    have hdiv : np_div? s (binsize (ebL xz) x.length) =
        some (s.zipWith (· / ·) (binsize (ebL xz) x.length)) := by
      unfold np_div?
      rw [if_pos (by rw [hbslen, hs])]
    refine ⟨((s.zipWith (· / ·)
        (binsize (ebL xz) x.length)).map (· / e_m14)).map (K * ·), ?_, ?_⟩
    · rw [VAPEC_evaluate_eq sess x K kT ab z (ebL xz) heb, ← hsdef, hdiv]
      rfl
    · intro i hi
      have hzl : i < (s.zipWith (· / ·) (binsize (ebL xz) x.length)).length := by
        rw [List.length_zipWith, hs, hbslen]; omega
      rw [getD_map_of_lt _ _ i (by simpa using hzl),
          getD_map_of_lt _ _ i hzl,
          zipWith_getD _ _ _ i (by omega) (by omega)]

/-- A concrete session with a constant length-2 spectrum, for witnesses. -/
def sessC4 : CIESession := ⟨[], false, [], 0, fun _ _ _ _ => [3, 4]⟩

/-- Witness for C4 at the session `sessC4`, grid `[1, 2]`, `K = 2`, `kT = 3`,
`abund = 4`, redshift `0`. -/
theorem C4_external_spectrum_scaling_witness :
    2 ≤ ([1, 2] : List ℚ).length ∧
      (∃ eb, ebounds? (([1, 2] : List ℚ).map (· * (1 + 0))) = some eb ∧
        (∀ i < ([1, 2] : List ℚ).length,
          (binsize eb ([1, 2] : List ℚ).length).getD i 0 =
            eb.getD (i + 1) 0 - eb.getD i 0) ∧
        ((((sessC4.set_response eb true).set_abund
              APEC.elements 4).return_spectrum 3).length =
            ([1, 2] : List ℚ).length →
          ∃ r, APEC.evaluate sessC4 [1, 2] 2 3 4 0 =
              some (r, (sessC4.set_response eb true).set_abund
                APEC.elements 4) ∧
            ∀ i < ([1, 2] : List ℚ).length,
              r.getD i 0 =
                2 * ((((sessC4.set_response eb true).set_abund
                        APEC.elements 4).return_spectrum 3).getD i 0 /
                    (binsize eb ([1, 2] : List ℚ).length).getD i 0 / e_m14)) ∧
        ((((sessC4.set_response eb true).set_abund
              VAPEC.elements 4).return_spectrum 3).length =
            ([1, 2] : List ℚ).length →
          ∃ r, VAPEC.evaluate sessC4 [1, 2] 2 3 4 0 =
              some (r, (sessC4.set_response eb true).set_abund
                VAPEC.elements 4) ∧
            ∀ i < ([1, 2] : List ℚ).length,
              r.getD i 0 =
                2 * ((((sessC4.set_response eb true).set_abund
                        VAPEC.elements 4).return_spectrum 3).getD i 0 /
                    (binsize eb ([1, 2] : List ℚ).length).getD i 0 / e_m14))) :=
  ⟨by decide, C4_external_spectrum_scaling sessC4 [1, 2] 2 3 4 0 (by decide)⟩

/-- Claim C6: `APEC.evaluate` / `VAPEC.evaluate` persist no derived bin-edge
state: the bin edges handed to the session are recomputed from the arguments
`x` and `redshift` on every call and do not depend on the prior recorded
session state, so two calls with equal arguments (on sessions with the same
underlying spectrum function) construct equal bin-edge sequences and equal
results. -/
theorem C6_no_persisted_state (s1 s2 : CIESession) (x : List ℚ)
    (K kT ab z : ℚ) (hfn : s1.spectrum_fn = s2.spectrum_fn) :
    APEC.evaluate s1 x K kT ab z = APEC.evaluate s2 x K kT ab z ∧
    VAPEC.evaluate s1 x K kT ab z = VAPEC.evaluate s2 x K kT ab z ∧
    (∀ r t, APEC.evaluate s1 x K kT ab z = some (r, t) →
      ebounds? (x.map (· * (1 + z))) = some t.response ∧ t.raw = true ∧
        t.abund_elements = APEC.elements ∧ t.abund = ab) ∧
    (∀ r t, VAPEC.evaluate s1 x K kT ab z = some (r, t) →
      ebounds? (x.map (· * (1 + z))) = some t.response ∧ t.raw = true ∧
        t.abund_elements = VAPEC.elements ∧ t.abund = ab) := by
  have hsess : ∀ (eb : List ℚ) (els : List ℕ),
      (s1.set_response eb true).set_abund els ab =
        (s2.set_response eb true).set_abund els ab := by
    intro eb els
    rw [session_after_sets, session_after_sets, hfn]
  refine ⟨?_, ?_, ?_, ?_⟩
  · cases heb : ebounds? (x.map (· * (1 + z))) with
    | none => simp [APEC.evaluate, heb]
    | some eb =>
      rw [APEC_evaluate_eq s1 x K kT ab z eb heb,
          APEC_evaluate_eq s2 x K kT ab z eb heb, hsess eb APEC.elements]
  · cases heb : ebounds? (x.map (· * (1 + z))) with
    | none => simp [VAPEC.evaluate, heb]
    | some eb =>
      rw [VAPEC_evaluate_eq s1 x K kT ab z eb heb,
          VAPEC_evaluate_eq s2 x K kT ab z eb heb, hsess eb VAPEC.elements]
  · intro r t h
    cases heb : ebounds? (x.map (· * (1 + z))) with
    | none =>
      rw [APEC.evaluate, heb] at h
      simp at h
    | some eb =>
      have := APEC_evaluate_some_session heb h
      subst this
      exact ⟨rfl, rfl, rfl, rfl⟩
  · intro r t h
    cases heb : ebounds? (x.map (· * (1 + z))) with
    | none =>
      rw [VAPEC.evaluate, heb] at h
      simp at h
    | some eb =>
      have := VAPEC_evaluate_some_session heb h
      subst this
      exact ⟨rfl, rfl, rfl, rfl⟩

/-- A second concrete session sharing `sessC4`'s spectrum function but with
different recorded state, for the C6 witness. -/
def sessC6 : CIESession := ⟨[9], true, [2], 7, fun _ _ _ _ => [3, 4]⟩

/-- Witness for C6: two sessions with the same spectrum function but
different prior recorded state, at grid `[1, 2]`. -/
theorem C6_no_persisted_state_witness :
    sessC4.spectrum_fn = sessC6.spectrum_fn ∧
      (APEC.evaluate sessC4 [1, 2] 1 2 3 0 =
          APEC.evaluate sessC6 [1, 2] 1 2 3 0 ∧
        VAPEC.evaluate sessC4 [1, 2] 1 2 3 0 =
          VAPEC.evaluate sessC6 [1, 2] 1 2 3 0 ∧
        (∀ r t, APEC.evaluate sessC4 [1, 2] 1 2 3 0 = some (r, t) →
          ebounds? (([1, 2] : List ℚ).map (· * (1 + 0))) = some t.response ∧
            t.raw = true ∧ t.abund_elements = APEC.elements ∧ t.abund = 3) ∧
        (∀ r t, VAPEC.evaluate sessC4 [1, 2] 1 2 3 0 = some (r, t) →
          ebounds? (([1, 2] : List ℚ).map (· * (1 + 0))) = some t.response ∧
            t.raw = true ∧ t.abund_elements = VAPEC.elements ∧ t.abund = 3)) :=
  ⟨rfl, C6_no_persisted_state sessC4 sessC6 [1, 2] 1 2 3 0 rfl⟩

/-- Claim C7: `PhAbs.evaluate` and `TbAbs.evaluate` are extensionally equal —
for every model of `np.exp`, every instance state, grid and column density
the two return the same result — and each class's `init_xsect` loads the same
two columns, differing only in the selected cross-section file name. -/
theorem C7_phabs_tbabs_same_evaluate (np_exp : ℚ → ℚ) (st : XsectState)
    (x : List ℚ) (NH : ℚ) (fits : String → FitsData) (ud tbl : String) :
    PhAbs.evaluate np_exp st x NH = TbAbs.evaluate np_exp st x NH ∧
    PhAbs.init_xsect fits ud tbl st =
      { st with
        xsect_ene := some (fits (PhAbs.xsect_fname ud tbl)).energy,
        xsect_val := some (fits (PhAbs.xsect_fname ud tbl)).sigma } ∧
    TbAbs.init_xsect fits ud tbl st =
      { st with
        xsect_ene := some (fits (TbAbs.xsect_fname ud tbl)).energy,
        xsect_val := some (fits (TbAbs.xsect_fname ud tbl)).sigma } :=
  ⟨rfl, rfl, rfl⟩

/-- Claim C5: `init_xsect` sets the instance table to the ENERGY and SIGMA
columns of the first extension of the selected file, and evaluation never
modifies it: the attributes after `evaluate` equal their values before. -/
theorem C5_table_loaded_once (fits : String → FitsData) (ud tbl : String)
    (st : XsectState) :
    (PhAbs.init_xsect fits ud tbl st).xsect_ene =
        some (fits (PhAbs.xsect_fname ud tbl)).energy ∧
      (PhAbs.init_xsect fits ud tbl st).xsect_val =
        some (fits (PhAbs.xsect_fname ud tbl)).sigma ∧
      (TbAbs.init_xsect fits ud tbl st).xsect_ene =
        some (fits (TbAbs.xsect_fname ud tbl)).energy ∧
      (TbAbs.init_xsect fits ud tbl st).xsect_val =
        some (fits (TbAbs.xsect_fname ud tbl)).sigma ∧
      (∀ np_exp x NH out st',
        PhAbs.evaluate np_exp st x NH = some (out, st') →
          st'.xsect_ene = st.xsect_ene ∧ st'.xsect_val = st.xsect_val) ∧
      (∀ np_exp x NH out st',
        TbAbs.evaluate np_exp st x NH = some (out, st') →
          st'.xsect_ene = st.xsect_ene ∧ st'.xsect_val = st.xsect_val) := by
  refine ⟨rfl, rfl, rfl, rfl, ?_, ?_⟩
  · intro np_exp x NH out st' h
    cases he : st.xsect_ene with
    | none => rw [PhAbs.evaluate, he] at h; simp at h
    | some ene =>
      cases hv : st.xsect_val with
      | none => rw [PhAbs.evaluate, he, hv] at h; simp at h
      | some val =>
        cases hi : np_interp? x ene val with
        | none => rw [PhAbs.evaluate, he, hv] at h; simp [hi] at h
        | some l =>
          rw [PhAbs.evaluate, he, hv] at h
          simp [hi] at h
          rw [← h.2]
          exact ⟨he, hv⟩
  · intro np_exp x NH out st' h
    cases he : st.xsect_ene with
    | none => rw [TbAbs.evaluate, he] at h; simp at h
    | some ene =>
      cases hv : st.xsect_val with
      | none => rw [TbAbs.evaluate, he, hv] at h; simp at h
      | some val =>
        cases hi : np_interp? x ene val with
        | none => rw [TbAbs.evaluate, he, hv] at h; simp [hi] at h
        | some l =>
          rw [TbAbs.evaluate, he, hv] at h
          simp [hi] at h
          rw [← h.2]
          exact ⟨he, hv⟩

/-- Witness for C5: a loaded one-knot table, evaluated at the grid `[1]`
with `NH = 5`; the attributes after the call equal those before. -/
theorem C5_table_loaded_once_witness :
    PhAbs.evaluate (fun u => u) ⟨some [1], some [2]⟩ [1] 5 =
        some ([-(5 * 2)], ⟨some [1], some [2]⟩) ∧
      (⟨some [1], some [2]⟩ : XsectState).xsect_ene =
          (⟨some [1], some [2]⟩ : XsectState).xsect_ene ∧
        (⟨some [1], some [2]⟩ : XsectState).xsect_val =
          (⟨some [1], some [2]⟩ : XsectState).xsect_val :=
  have h : PhAbs.evaluate (fun u => u) ⟨some [1], some [2]⟩ [1] 5 =
      some ([-(5 * 2)], ⟨some [1], some [2]⟩) := rfl
  ⟨h, (C5_table_loaded_once (fun _ => ⟨[1], [2]⟩) "u" "AG89"
      ⟨some [1], some [2]⟩).2.2.2.2.1 (fun u => u) [1] 5 [-(5 * 2)]
      ⟨some [1], some [2]⟩ h⟩

/-! ### Constant extrapolation of the interpolation model -/

lemma interpPts_below (t e v : ℚ) (erest vrest : List ℚ) (h : t ≤ e) :
    interpPts t ((e :: erest).zip (v :: vrest)) = v := by
  rw [List.zip_cons_cons]
  cases hz : erest.zip vrest with
  | nil => rfl
  | cons q rest => rw [interpPts, if_pos h]

lemma interpPts_above (t : ℚ) :
    ∀ ene val : List ℚ, ene.length = val.length →
      (∀ u ∈ ene, u < t) → interpPts t (ene.zip val) = val.getLastD 0 := by
  intro ene
  induction ene with
  | nil =>
    intro val hlen _
    have : val = [] := by
      cases val with
      | nil => rfl
      | cons v vs => simp at hlen
    subst this
    rfl
  | cons e erest ih =>
    intro val hlen hmem
    cases val with
    | nil => simp at hlen
    | cons v vrest =>
      rw [List.zip_cons_cons]
      cases erest with
      | nil =>
        have : vrest = [] := by
          cases vrest with
          | nil => rfl
          | cons w ws => simp at hlen
        subst this
        rfl
      | cons e2 erest2 =>
        cases vrest with
        | nil => simp at hlen
        | cons v2 vrest2 =>
          rw [List.zip_cons_cons, interpPts,
              if_neg (by push_neg; exact hmem e (by simp)),
              if_neg (by push_neg; exact hmem e2 (by simp)),
              ← List.zip_cons_cons]
          rw [ih (v2 :: vrest2) (by simpa using hlen)
              (fun u hu => hmem u (List.mem_cons_of_mem e hu))]
          rfl

/-- Claim C3: with a loaded table `(ene, val)`, `PhAbs.evaluate` and
`TbAbs.evaluate` return elementwise `exp(-NH * sigma(x))`, where `sigma` is
the piecewise-linear interpolation of the static table at the points of `x`
with constant extrapolation at the table ends, as `np.interp` does; no
external library call occurs during evaluation (the result depends only on
the stored table). -/
theorem C3_interp_exp_formula (np_exp : ℚ → ℚ) (st : XsectState)
    (x : List ℚ) (NH : ℚ) (ene val : List ℚ) (hene : st.xsect_ene = some ene)
    (hval : st.xsect_val = some val) (hlen : ene.length = val.length)
    (hne : ene ≠ []) :
    PhAbs.evaluate np_exp st x NH =
      some (x.map (fun t => np_exp (-(NH * interpPts t (ene.zip val)))), st) ∧
    TbAbs.evaluate np_exp st x NH =
      some (x.map (fun t => np_exp (-(NH * interpPts t (ene.zip val)))), st) ∧
    (∀ t e v erest vrest, ene = e :: erest → val = v :: vrest → t ≤ e →
      interpPts t (ene.zip val) = v) ∧
    (∀ t, (∀ u ∈ ene, u < t) →
      interpPts t (ene.zip val) = val.getLastD 0) := by
  have hint : np_interp? x ene val =
      some (x.map fun t => interpPts t (ene.zip val)) := by
    unfold np_interp?
    rw [if_pos ⟨hlen, hne⟩]
  refine ⟨?_, ?_, ?_, ?_⟩
  · rw [PhAbs.evaluate, hene, hval]
    simp [hint, List.map_map, Function.comp_def]
  · rw [TbAbs.evaluate, hene, hval]
    simp [hint, List.map_map, Function.comp_def]
  · intro t e v erest vrest hce hcv ht
    subst hce; subst hcv
    exact interpPts_below t e v erest vrest ht
  · intro t hmem
    exact interpPts_above t ene val hlen hmem

/-- Witness for C3: the one-knot table `([1], [2])` at the grid `[0, 3]`. -/
theorem C3_interp_exp_formula_witness :
    (⟨some [1], some [2]⟩ : XsectState).xsect_ene = some [1] ∧
      (⟨some [1], some [2]⟩ : XsectState).xsect_val = some [2] ∧
      ([1] : List ℚ).length = ([2] : List ℚ).length ∧
      ([1] : List ℚ) ≠ [] ∧
      (PhAbs.evaluate (fun u => u) ⟨some [1], some [2]⟩ [0, 3] 5 =
        some (([0, 3] : List ℚ).map
          (fun t => (fun u => u)
            (-(5 * interpPts t (([1] : List ℚ).zip ([2] : List ℚ))))),
          ⟨some [1], some [2]⟩) ∧
      TbAbs.evaluate (fun u => u) ⟨some [1], some [2]⟩ [0, 3] 5 =
        some (([0, 3] : List ℚ).map
          (fun t => (fun u => u)
            (-(5 * interpPts t (([1] : List ℚ).zip ([2] : List ℚ))))),
          ⟨some [1], some [2]⟩) ∧
      (∀ t e v erest vrest, ([1] : List ℚ) = e :: erest →
        ([2] : List ℚ) = v :: vrest → t ≤ e →
        interpPts t (([1] : List ℚ).zip ([2] : List ℚ)) = v) ∧
      (∀ t, (∀ u ∈ ([1] : List ℚ), u < t) →
        interpPts t (([1] : List ℚ).zip ([2] : List ℚ)) =
          ([2] : List ℚ).getLastD 0)) :=
  ⟨rfl, rfl, rfl, by decide,
   C3_interp_exp_formula (fun u => u) ⟨some [1], some [2]⟩ [0, 3] 5 [1] [2]
     rfl rfl rfl (by decide)⟩

/-- Claim C9: for every abundance-table string other than the recognized
values, `init_xsect` does not raise: `PhAbs` falls back to the AG89 file and
`TbAbs` falls back to the WILM file; moreover TbAbs's `ASPL` and `WILM`
branches (and its fallback) open paths with a doubled `xsect/xsect/`
directory segment, unlike its `AG89` branch. -/
theorem C9_unknown_table_fallback (ud tbl : String) (hA : tbl ≠ "AG89")
    (hS : tbl ≠ "ASPL") :
    PhAbs.xsect_fname ud tbl =
        os_path_join ud "xsect" ++ "/xsect_phabs_angr.fits" ∧
      PhAbs.xsect_fname ud tbl = PhAbs.xsect_fname ud "AG89" ∧
      (tbl ≠ "WILM" →
        TbAbs.xsect_fname ud tbl =
            os_path_join ud "xsect" ++ "/xsect/xsect_tbabs_wilm.fits" ∧
          TbAbs.xsect_fname ud tbl = TbAbs.xsect_fname ud "WILM") ∧
      TbAbs.xsect_fname "UD" "ASPL" = "UD/xsect/xsect/xsect_tbabs_aspl.fits" ∧
      TbAbs.xsect_fname "UD" "WILM" = "UD/xsect/xsect/xsect_tbabs_wilm.fits" ∧
      TbAbs.xsect_fname "UD" "AG89" = "UD/xsect/xsect_tbabs_angr.fits" ∧
      PhAbs.xsect_fname "UD" "ZZZ" = "UD/xsect/xsect_phabs_angr.fits" ∧
      (∀ fits st, (PhAbs.init_xsect fits ud tbl st).xsect_ene =
        some (fits (PhAbs.xsect_fname ud tbl)).energy) ∧
      (∀ fits st, (TbAbs.init_xsect fits ud tbl st).xsect_ene =
        some (fits (TbAbs.xsect_fname ud tbl)).energy) := by
  refine ⟨?_, ?_, ?_, by decide, by decide, by decide, by decide,
    fun fits st => rfl, fun fits st => rfl⟩
  · rw [PhAbs.xsect_fname, if_neg hA, if_neg hS]
  · rw [PhAbs.xsect_fname, if_neg hA, if_neg hS, PhAbs.xsect_fname,
        if_pos rfl]
  · intro hW
    constructor
    · rw [TbAbs.xsect_fname, if_neg hA, if_neg hS, if_neg hW]
    · rw [TbAbs.xsect_fname, if_neg hA, if_neg hS, if_neg hW,
          TbAbs.xsect_fname]
      simp

/-- Witness for C9 at the unrecognized table name `"FOO"`. -/
theorem C9_unknown_table_fallback_witness :
    ("FOO" ≠ "AG89") ∧ ("FOO" ≠ "ASPL") ∧
      (PhAbs.xsect_fname "UD" "FOO" =
          os_path_join "UD" "xsect" ++ "/xsect_phabs_angr.fits" ∧
        PhAbs.xsect_fname "UD" "FOO" = PhAbs.xsect_fname "UD" "AG89" ∧
        ("FOO" ≠ "WILM" →
          TbAbs.xsect_fname "UD" "FOO" =
              os_path_join "UD" "xsect" ++ "/xsect/xsect_tbabs_wilm.fits" ∧
            TbAbs.xsect_fname "UD" "FOO" = TbAbs.xsect_fname "UD" "WILM") ∧
        TbAbs.xsect_fname "UD" "ASPL" =
          "UD/xsect/xsect/xsect_tbabs_aspl.fits" ∧
        TbAbs.xsect_fname "UD" "WILM" =
          "UD/xsect/xsect/xsect_tbabs_wilm.fits" ∧
        TbAbs.xsect_fname "UD" "AG89" = "UD/xsect/xsect_tbabs_angr.fits" ∧
        PhAbs.xsect_fname "UD" "ZZZ" = "UD/xsect/xsect_phabs_angr.fits" ∧
        (∀ fits st, (PhAbs.init_xsect fits "UD" "FOO" st).xsect_ene =
          some (fits (PhAbs.xsect_fname "UD" "FOO")).energy) ∧
        (∀ fits st, (TbAbs.init_xsect fits "UD" "FOO" st).xsect_ene =
          some (fits (TbAbs.xsect_fname "UD" "FOO")).energy)) :=
  ⟨by decide, by decide,
   C9_unknown_table_fallback "UD" "FOO" (by decide) (by decide)⟩
